import Mathlib

/-!
Verification of the `inplace_vector` fixed-capacity container
(PKIsensee/TestInplaceVector).

The repository ships the test harness (`TestInplaceVector.cpp`) exercising
the container's public contract; the container header itself is not part of
the sources at hand, so every operation below is modelled from the spec's
description of the contract (each such definition's doc comment starts
with `Modelled from the spec:`).  State is passed explicitly: a checked
operation returns `Except VecError`, a fallible one returns `Option` or a
consumed-count, and unchecked operations take their precondition as a
hypothesis.  Since state passing is pure, a call that returns an error
leaves the caller's container untouched by construction, which is exactly
the strong guarantee the spec demands of the checked tier.
-/

namespace IPV

/-- Modelled from the spec: the two recoverable error conditions.
`badAlloc` is the capacity-exhaustion condition (a `std::bad_alloc`),
`outOfRange` the checked-access condition (a `std::out_of_range`). -/
inductive VecError where
  | badAlloc
  | outOfRange
deriving DecidableEq, Repr

/-- Modelled from the spec: the fixed diagnostic message carried by each
error condition (`what()` of the thrown exception). -/
def VecError.what : VecError → String
  | .badAlloc => "bad allocation"
  | .outOfRange => "inplace_vector::at"

/-- Modelled from the spec: the container `inplace_vector<T, N>` (header
`inplace_vector.h`, not among the sources).  The live slots `[0, size)`
are represented by the list `elems`; the invariant `size ≤ N` is carried
in the structure, and the capacity `N` is part of the type, so
cross-capacity operations are rejected by the type checker exactly as the
spec's compile-time rejection demands. -/
structure inplace_vector (α : Type) (N : Nat) where
  elems : List α
  size_le : elems.length ≤ N

namespace inplace_vector

variable {α : Type} {N : Nat}

/-- Modelled from the spec: the default constructor creates an empty
container. -/
def init : inplace_vector α N := ⟨[], Nat.zero_le N⟩

/-- Modelled from the spec: `size()` is the live-element count. -/
def size (v : inplace_vector α N) : Nat := v.elems.length

/-- Modelled from the spec: `empty()` reports whether `size() == 0`. -/
def isEmpty (v : inplace_vector α N) : Bool := v.elems.length == 0

/-- Modelled from the spec: `capacity()` always reports the type-level
bound `N`. -/
def capacity (_ : inplace_vector α N) : Nat := N

/-- Modelled from the spec: `max_size()` always reports the type-level
bound `N`. -/
def max_size (_ : inplace_vector α N) : Nat := N

/-- Modelled from the spec: `reserve(n)` is a no-op for `n ≤ N`; for
`n > N` it raises the checked-capacity error like every checked
operation. -/
def reserve (v : inplace_vector α N) (n : Nat) :
    Except VecError (inplace_vector α N) :=
  if n > N then .error .badAlloc else .ok v

/-- Modelled from the spec: `shrink_to_fit()` is a no-op since storage is
fixed. -/
def shrink_to_fit (v : inplace_vector α N) : inplace_vector α N := v

/-- Modelled from the spec: checked `push_back`; when the requested final
size would exceed `N` it fails with the allocation-exhaustion error and
performs no modification; on success it appends the value at the tail.
The C++ call returns a reference to the new element, i.e. to the back of
the post-state. -/
def push_back (v : inplace_vector α N) (x : α) :
    Except VecError (inplace_vector α N) :=
  if h : v.elems.length + 1 > N then .error .badAlloc
  else .ok ⟨v.elems ++ [x], by simp; omega⟩

/-- Modelled from the spec: checked `emplace_back` constructs the new
element in place at the tail; the constructed value is passed directly.
Identical admissibility and effect to `push_back`. -/
def emplace_back (v : inplace_vector α N) (x : α) :
    Except VecError (inplace_vector α N) :=
  if h : v.elems.length + 1 > N then .error .badAlloc
  else .ok ⟨v.elems ++ [x], by simp; omega⟩

/-- Modelled from the spec: fallible `try_push_back` returns a null-like
result (`none`) with no side effect when the container is full, otherwise
the post-state whose back is the new element (the C++ call returns a
pointer to that element). -/
def try_push_back (v : inplace_vector α N) (x : α) :
    Option (inplace_vector α N) :=
  if h : v.elems.length + 1 > N then none
  else some ⟨v.elems ++ [x], by simp; omega⟩

/-- Modelled from the spec: fallible `try_emplace_back`, same contract as
`try_push_back` with in-place construction. -/
def try_emplace_back (v : inplace_vector α N) (x : α) :
    Option (inplace_vector α N) :=
  if h : v.elems.length + 1 > N then none
  else some ⟨v.elems ++ [x], by simp; omega⟩

/-- Modelled from the spec: unchecked `unchecked_push_back`; the caller
guarantees spare capacity (here: a hypothesis), violating it is undefined
behavior. -/
def unchecked_push_back (v : inplace_vector α N) (x : α)
    (h : v.elems.length < N) : inplace_vector α N :=
  ⟨v.elems ++ [x], by simp; omega⟩

/-- Modelled from the spec: unchecked `unchecked_emplace_back`, same
contract as `unchecked_push_back` with in-place construction. -/
def unchecked_emplace_back (v : inplace_vector α N) (x : α)
    (h : v.elems.length < N) : inplace_vector α N :=
  ⟨v.elems ++ [x], by simp; omega⟩

/-- Modelled from the spec: `pop_back` removes the tail element; calling
it on an empty container is a precondition violation (hypothesis). -/
def pop_back (v : inplace_vector α N) (_ : v.elems ≠ []) :
    inplace_vector α N :=
  ⟨v.elems.dropLast, le_trans (by simp [List.length_dropLast]) v.size_le⟩

/-- Modelled from the spec: checked element access `at(pos)` (non-const
overload); fails with the out-of-range error when `pos ≥ size`, and being
a pure query it never modifies the container. -/
def «at» (v : inplace_vector α N) (pos : Nat) : Except VecError α :=
  if h : pos < v.elems.length then .ok (v.elems.get ⟨pos, h⟩)
  else .error .outOfRange

/-- Modelled from the spec: checked element access `at(pos)` const
overload — identical indexing semantics to the non-const overload. -/
def at_const (v : inplace_vector α N) (pos : Nat) : Except VecError α :=
  if h : pos < v.elems.length then .ok (v.elems.get ⟨pos, h⟩)
  else .error .outOfRange

/-- Modelled from the spec: checked `insert(pos, value)` at an arbitrary
position (given as an index `pos ≤ size`): when the requested final size
would exceed `N` it fails with the allocation-exhaustion error and makes
no modification; otherwise it shifts all elements at indices `≥ pos` one
slot toward the tail, constructs the new element at `pos`, and returns an
iterator (the index) of the first inserted element. -/
def insert (v : inplace_vector α N) (pos : Nat) (x : α) :
    Except VecError (inplace_vector α N × Nat) :=
  if h : v.elems.length + 1 > N then .error .badAlloc
  else .ok (⟨v.elems.take pos ++ x :: v.elems.drop pos, by
      simp [List.length_take, List.length_drop]; omega⟩, pos)

/-- Modelled from the spec: checked `emplace(pos, args...)` constructs the
element in place at `pos`; identical admissibility and placement to
single-element `insert`. -/
def emplace (v : inplace_vector α N) (pos : Nat) (x : α) :
    Except VecError (inplace_vector α N × Nat) :=
  if h : v.elems.length + 1 > N then .error .badAlloc
  else .ok (⟨v.elems.take pos ++ x :: v.elems.drop pos, by
      simp [List.length_take, List.length_drop]; omega⟩, pos)

/-- Modelled from the spec: checked `insert(pos, count, value)` inserts
`count` copies of the value at `pos`, shifting later elements `count`
slots toward the tail; fails with the allocation-exhaustion error when
the requested final size would exceed `N`. -/
def insert_count (v : inplace_vector α N) (pos count : Nat) (x : α) :
    Except VecError (inplace_vector α N × Nat) :=
  if h : v.elems.length + count > N then .error .badAlloc
  else .ok (⟨v.elems.take pos ++ List.replicate count x ++ v.elems.drop pos, by
      simp [List.length_take, List.length_drop]; omega⟩, pos)

/-- Modelled from the spec: checked `insert(pos, first, last)` /
`insert_range(pos, range)` inserts the source elements at `pos` in source
order; fails with the allocation-exhaustion error when the requested final
size would exceed `N`. -/
def insert_list (v : inplace_vector α N) (pos : Nat) (src : List α) :
    Except VecError (inplace_vector α N × Nat) :=
  if h : v.elems.length + src.length > N then .error .badAlloc
  else .ok (⟨v.elems.take pos ++ src ++ v.elems.drop pos, by
      simp [List.length_take, List.length_drop]; omega⟩, pos)

/-- Modelled from the spec: checked `resize(n, value)`: destroys the
excess tail when `n ≤ size`, copy-constructs new tail elements from
`value` when `n > size`, and fails with the allocation-exhaustion error
(no modification) when `n > N`. -/
def resize (v : inplace_vector α N) (n : Nat) (x : α) :
    Except VecError (inplace_vector α N) :=
  if h : n > N then .error .badAlloc
  else if hn : n ≤ v.elems.length then .ok ⟨v.elems.take n, by
      simp [List.length_take]; omega⟩
  else .ok ⟨v.elems ++ List.replicate (n - v.elems.length) x, by
      simp; omega⟩

/-- Modelled from the spec: checked `resize(n)` default-constructs the new
tail elements; the element type's default value stands in for default
construction. -/
def resize_default [Inhabited α] (v : inplace_vector α N) (n : Nat) :
    Except VecError (inplace_vector α N) :=
  resize v n default

/-- Modelled from the spec: checked `append_range` bulk-pushes the source
range to the tail; fails with the allocation-exhaustion error (no
modification) when the requested final size would exceed `N`. -/
def append_range (v : inplace_vector α N) (src : List α) :
    Except VecError (inplace_vector α N) :=
  if h : v.elems.length + src.length > N then .error .badAlloc
  else .ok ⟨v.elems ++ src, by simp; omega⟩

/-- Modelled from the spec: the element-consuming loop of
`try_append_range`: append source elements one at a time, in order, while
the live count is below the capacity bound `cap`; stop at the first
element that does not fit.  Returns the new contents and how many source
elements were consumed. -/
def try_append_go (cap : Nat) (acc : List α) : List α → List α × Nat
  | [] => (acc, 0)
  | x :: xs =>
    if acc.length < cap then
      let r := try_append_go cap (acc ++ [x]) xs
      (r.1, r.2 + 1)
    else (acc, 0)

theorem try_append_go_eq (cap : Nat) (src : List α) : ∀ acc : List α,
    try_append_go cap acc src =
      (acc ++ src.take (cap - acc.length),
       min src.length (cap - acc.length)) := by
  induction src with
  | nil => intro acc; simp [try_append_go]
  | cons x xs ih =>
    intro acc
    simp only [try_append_go]
    by_cases hlt : acc.length < cap
    · rw [if_pos hlt, ih (acc ++ [x])]
      have hsub : cap - acc.length = (cap - (acc.length + 1)) + 1 := by omega
      refine Prod.ext ?_ ?_
      · simp only [hsub, List.take_succ_cons, List.length_append,
          List.length_cons, List.length_nil, Nat.zero_add,
          List.append_assoc, List.singleton_append]
      · simp only [List.length_append, List.length_cons, List.length_nil]
        omega
    · rw [if_neg hlt]
      have h0 : cap - acc.length = 0 := by omega
      simp [h0]

theorem try_append_go_len_le (cap : Nat) (acc src : List α)
    (h : acc.length ≤ cap) : (try_append_go cap acc src).1.length ≤ cap := by
  rw [try_append_go_eq]
  simp [List.length_take]
  omega

/-- Modelled from the spec: fallible `try_append_range` appends source
elements in order until the container is full (partial progress allowed),
and returns the position in the source range just past the last element
consumed — modelled as the count of consumed source elements. -/
def try_append_range (v : inplace_vector α N) (src : List α) :
    inplace_vector α N × Nat :=
  let r := try_append_go N v.elems src
  (⟨r.1, try_append_go_len_le N v.elems src v.size_le⟩, r.2)

/-- Modelled from the spec: member `erase(pos)` shifts the retained
trailing elements down one slot, destroys the freed tail slot, decrements
size, and returns an iterator (the index) of the element now occupying
the erased position; precondition `pos < size`. -/
def erase (v : inplace_vector α N) (pos : Nat) :
    inplace_vector α N × Nat :=
  (⟨v.elems.take pos ++ v.elems.drop (pos + 1), by
      have := v.size_le
      simp [List.length_take, List.length_drop]; omega⟩, pos)

/-- Modelled from the spec: member `erase(first, last)` removes the range
`[first, last)`, shifting later elements down by `last - first`, and
returns an iterator (the index) `first` of the element now occupying the
erased position; erasing an empty range removes nothing.  Preconditions
`first ≤ last ≤ size`; the `max` clamping only normalises inputs outside
the precondition (undefined behavior in the source). -/
def erase_range (v : inplace_vector α N) (first last : Nat) :
    inplace_vector α N × Nat :=
  (⟨v.elems.take first ++ v.elems.drop (max first last), by
      have := v.size_le
      simp [List.length_take, List.length_drop]; omega⟩, first)

/-- Modelled from the spec: `clear()` destroys all live elements; size
becomes 0, capacity unaffected. -/
def clear (_ : inplace_vector α N) : inplace_vector α N :=
  ⟨[], Nat.zero_le N⟩

/-- Modelled from the spec: `swap` exchanges the full contents (and
sizes) of two same-capacity containers; never fails. -/
def swap (v w : inplace_vector α N) :
    inplace_vector α N × inplace_vector α N := (w, v)

/-- Modelled from the spec: the move constructor transfers size and
re-homes every live element into the destination (first component),
leaving the source (second component) a valid, usable, empty container. -/
def move_ctor (v : inplace_vector α N) :
    inplace_vector α N × inplace_vector α N :=
  (⟨v.elems, v.size_le⟩, ⟨[], Nat.zero_le N⟩)

/-- Modelled from the spec: move assignment destroys the destination's
prior contents, transfers the source's elements into the destination
(first component), and leaves the source (second component) a valid,
usable, empty container. -/
def move_assign (_ : inplace_vector α N) (src : inplace_vector α N) :
    inplace_vector α N × inplace_vector α N :=
  (⟨src.elems, src.size_le⟩, ⟨[], Nat.zero_le N⟩)

end inplace_vector

variable {α : Type} {N : Nat}

/-- Modelled from the spec: the single compaction pass underlying the
non-member `erase`/`erase_if`: walk the live elements once, dropping each
element that satisfies the predicate and keeping the rest in order, while
counting the removals. -/
def erase_if_go (p : α → Bool) : List α → List α × Nat
  | [] => ([], 0)
  | x :: xs =>
    let r := erase_if_go p xs
    if p x then (r.1, r.2 + 1) else (x :: r.1, r.2)

theorem erase_if_go_eq (p : α → Bool) (l : List α) :
    erase_if_go p l = (l.filter (fun x => !(p x)), l.countP p) := by
  induction l with
  | nil => simp [erase_if_go, List.countP_nil]
  | cons x xs ih =>
    simp only [erase_if_go, ih, List.countP_cons, List.filter_cons]
    by_cases h : p x <;> simp [h]

theorem erase_if_go_len_le (p : α → Bool) (l : List α) :
    (erase_if_go p l).1.length ≤ l.length := by
  rw [erase_if_go_eq]
  exact List.length_filter_le _ l

/-- Modelled from the spec: non-member `erase_if(container, predicate)`
removes every element satisfying the predicate in a single compacting
pass, preserving the relative order of survivors, and returns the count
removed. -/
def erase_if (v : inplace_vector α N) (p : α → Bool) :
    inplace_vector α N × Nat :=
  (⟨(erase_if_go p v.elems).1,
     le_trans (erase_if_go_len_le p v.elems) v.size_le⟩,
   (erase_if_go p v.elems).2)

/-- Modelled from the spec: non-member `erase(container, value)` removes
every element equal to the value, preserving the relative order of
survivors, and returns the count removed. -/
def erase_val [DecidableEq α] (v : inplace_vector α N) (x : α) :
    inplace_vector α N × Nat :=
  erase_if v (fun y => decide (y = x))

/-! Concrete containers used to ground the claim theorems on the states
exercised by the repository's test harness. -/

/-- A full capacity-3 container holding `[a, b, c]` (spec Scenario B). -/
def cvec3 : inplace_vector Char 3 := ⟨['a', 'b', 'c'], by decide⟩

/-- A capacity-5 container holding 3 elements (spec Scenario C). -/
def cvec5 : inplace_vector Char 5 := ⟨['x', 'y', 'z'], by decide⟩

/-- A capacity-5 container holding 5 elements (erase tests). -/
def avec5 : inplace_vector Char 5 := ⟨['a', 'b', 'c', 'd', 'e'], by decide⟩

/-- A capacity-4 container with exactly one free slot (spec Scenario E). -/
def nvec4 : inplace_vector Nat 4 := ⟨[1, 2, 3], by decide⟩

/-- A full capacity-4 container. -/
def nvec4full : inplace_vector Nat 4 := ⟨[1, 2, 3, 4], by decide⟩

/-- A capacity-10 container holding `0..9` (spec Scenario D). -/
def nvec10 : inplace_vector Nat 10 :=
  ⟨[0, 1, 2, 3, 4, 5, 6, 7, 8, 9], by decide⟩

/-- An empty capacity-4 container (spec Scenario A). -/
def empty4 : inplace_vector Char 4 := ⟨[], by decide⟩

/-- Spec Scenario A as run by the test harness: on an empty capacity-4
container, `insert(end, a)` then `insert(begin, b)` then
`insert(begin+1, c)`, observing the final contents. -/
def scenarioA : Except VecError (List Char) := do
  let r1 ← empty4.insert empty4.size 'a'
  let r2 ← r1.1.insert 0 'b'
  let r3 ← r2.1.insert 1 'c'
  pure r3.1.elems

/-- Claim C1: every checked-tier operation (`push_back`, `emplace_back`,
`emplace`, `insert`, `resize`) whose requested final size would exceed the
fixed capacity `N` fails with the allocation-exhaustion error
(`std::bad_alloc`, message "bad allocation"); the operation returns only
the error value, so in the explicit-state embedding the caller's container
is left exactly as it was before the call (strong guarantee). -/
theorem C1_checked_tier_capacity_failure (v : inplace_vector α N) (x : α)
    (pos n : Nat) :
    (v.size + 1 > N → v.push_back x = Except.error VecError.badAlloc) ∧
    (v.size + 1 > N → v.emplace_back x = Except.error VecError.badAlloc) ∧
    (v.size + 1 > N → v.emplace pos x = Except.error VecError.badAlloc) ∧
    (v.size + 1 > N → v.insert pos x = Except.error VecError.badAlloc) ∧
    (n > N → v.resize n x = Except.error VecError.badAlloc) ∧
    VecError.what VecError.badAlloc = "bad allocation" := by
  refine ⟨fun h => ?_, fun h => ?_, fun h => ?_, fun h => ?_, fun h => ?_,
    rfl⟩
  · rw [inplace_vector.push_back]; exact dif_pos h
  · rw [inplace_vector.emplace_back]; exact dif_pos h
  · rw [inplace_vector.emplace]; exact dif_pos h
  · rw [inplace_vector.insert]; exact dif_pos h
  · rw [inplace_vector.resize]; exact dif_pos h

/-- Witness for C1 on spec Scenario B: a full capacity-3 container
`[a, b, c]`; every checked growth operation fails with `badAlloc`. -/
theorem C1_witness :
    cvec3.size + 1 > 3 ∧
    (cvec3.push_back 'd' = Except.error VecError.badAlloc ∧
     cvec3.emplace_back 'd' = Except.error VecError.badAlloc ∧
     cvec3.emplace 0 'd' = Except.error VecError.badAlloc ∧
     cvec3.insert 0 'd' = Except.error VecError.badAlloc ∧
     cvec3.resize 4 'd' = Except.error VecError.badAlloc ∧
     VecError.what VecError.badAlloc = "bad allocation") := by
  have h := C1_checked_tier_capacity_failure cvec3 'd' 0 4
  exact ⟨by decide, h.1 (by decide), h.2.1 (by decide), h.2.2.1 (by decide),
    h.2.2.2.1 (by decide), h.2.2.2.2.1 (by decide), h.2.2.2.2.2⟩

/-- Claim C2: for every reachable state, `0 ≤ size() ≤ capacity() = N`
(`0 ≤` is trivial over `Nat`), `capacity()` and `max_size()` both equal
`N`, `reserve(n)` with `n ≤ N` is a no-op returning the container
unchanged, and `shrink_to_fit()` is the identity, so neither changes
`capacity()`. -/
theorem C2_capacity_invariant (v : inplace_vector α N) (n : Nat) :
    v.size ≤ v.capacity ∧
    v.capacity = N ∧
    v.max_size = N ∧
    (n ≤ N → v.reserve n = Except.ok v) ∧
    v.shrink_to_fit = v ∧
    v.shrink_to_fit.capacity = v.capacity := by
  refine ⟨v.size_le, rfl, rfl, fun h => ?_, rfl, rfl⟩
  rw [inplace_vector.reserve, if_neg (by omega)]

/-- Witness for C2 on the test harness's capacity-3 container with
`reserve(2)`. -/
theorem C2_witness :
    cvec3.size ≤ cvec3.capacity ∧
    cvec3.capacity = 3 ∧
    cvec3.max_size = 3 ∧
    ((2 : Nat) ≤ 3 ∧ cvec3.reserve 2 = Except.ok cvec3) ∧
    cvec3.shrink_to_fit = cvec3 ∧
    cvec3.shrink_to_fit.capacity = cvec3.capacity := by
  have h := C2_capacity_invariant cvec3 2
  exact ⟨h.1, h.2.1, h.2.2.1, ⟨by decide, h.2.2.2.1 (by decide)⟩,
    h.2.2.2.2.1, h.2.2.2.2.2⟩

/-- Claim C3: `insert` at position `pos` returns an iterator (the index)
of the first inserted element, which holds the inserted value, and
preserves the relative order of the pre-existing elements (those before
`pos` stay in place, those at or after `pos` move one slot toward the
tail); and spec Scenario A — `insert(end, a)`, `insert(begin, b)`,
`insert(begin+1, c)` on an empty capacity-4 container — yields the
sequence `b, c, a`. -/
theorem C3_insert_position_and_order (v : inplace_vector α N) (pos : Nat)
    (x : α) (hroom : v.size < N) (hpos : pos ≤ v.size) :
    (∃ w, v.insert pos x = Except.ok (w, pos) ∧
      w.size = v.size + 1 ∧
      w.elems[pos]? = some x ∧
      (∀ i, i < pos → w.elems[i]? = v.elems[i]?) ∧
      (∀ i, pos ≤ i → w.elems[i + 1]? = v.elems[i]?)) ∧
    scenarioA = Except.ok ['b', 'c', 'a'] := by
  constructor
  · have hN : ¬ (v.elems.length + 1 > N) := by
      simp only [inplace_vector.size] at hroom; omega
    have hlen : pos ≤ v.elems.length := hpos
    have htake : (v.elems.take pos).length = pos := by
      simp [List.length_take]; omega
    refine ⟨⟨v.elems.take pos ++ x :: v.elems.drop pos, ?_⟩, ?_, ?_, ?_, ?_, ?_⟩
    · simp only [List.length_append, List.length_take, List.length_cons,
        List.length_drop]
      have := v.size_le; omega
    · rw [inplace_vector.insert, dif_neg hN]
    · simp only [inplace_vector.size, List.length_append, List.length_take,
        List.length_cons, List.length_drop]
      omega
    · rw [List.getElem?_append_right (le_of_eq htake), htake]
      simp
    · intro i hi
      rw [List.getElem?_append, htake, if_pos hi]
      exact List.getElem?_take_of_lt hi
    · intro i hi
      rw [List.getElem?_append, htake, if_neg (by omega)]
      have h1 : i + 1 - pos = (i - pos) + 1 := by omega
      rw [h1, List.getElem?_cons_succ, List.getElem?_drop]
      have h2 : pos + (i - pos) = i := by omega
      rw [h2]
  · rfl

/-- Witness for C3 at the concrete input of spec Scenario A: inserting
into the empty capacity-4 container at position 0. -/
theorem C3_witness :
    empty4.size < 4 ∧ (0 : Nat) ≤ empty4.size ∧
    ((∃ w, empty4.insert 0 'z' = Except.ok (w, 0) ∧
       w.size = empty4.size + 1 ∧
       w.elems[0]? = some 'z' ∧
       (∀ i, i < 0 → w.elems[i]? = empty4.elems[i]?) ∧
       (∀ i, 0 ≤ i → w.elems[i + 1]? = empty4.elems[i]?)) ∧
     scenarioA = Except.ok ['b', 'c', 'a']) :=
  ⟨by decide, by decide,
   C3_insert_position_and_order empty4 0 'z' (by decide) (by decide)⟩

/-- Claim C4: moving a container (move construction or move assignment)
leaves the source empty (`size() = 0`) yet still a valid, usable
container — it accepts a subsequent `push_back` whenever `N > 0` — and
the destination holds exactly the source's former elements, equal in
value and in the same order.  The element type `α` is arbitrary, covering
element types with non-trivial, state-mutating destructors, whose moved
values must still compare equal to the originals. -/
theorem C4_move_semantics (v dst : inplace_vector α N) (x : α)
    (hN : 0 < N) :
    v.move_ctor.1.elems = v.elems ∧
    v.move_ctor.2.size = 0 ∧
    (dst.move_assign v).1.elems = v.elems ∧
    (dst.move_assign v).2.size = 0 ∧
    v.move_ctor.2.push_back x = Except.ok ⟨[x], by simpa using hN⟩ := by
  refine ⟨rfl, rfl, rfl, rfl, ?_⟩
  rw [inplace_vector.push_back, dif_neg (by
    simp only [inplace_vector.move_ctor, List.length_nil]; omega)]
  rfl

/-- Witness for C4: moving the 3-element capacity-3 container `[a, b, c]`
and pushing into the emptied source afterwards. -/
theorem C4_witness :
    (0 : Nat) < 3 ∧
    (cvec3.move_ctor.1.elems = cvec3.elems ∧
     cvec3.move_ctor.2.size = 0 ∧
     (cvec3.move_assign cvec3).1.elems = cvec3.elems ∧
     (cvec3.move_assign cvec3).2.size = 0 ∧
     cvec3.move_ctor.2.push_back 'z' = Except.ok ⟨['z'], by decide⟩) :=
  ⟨by decide, C4_move_semantics cvec3 cvec3 'z' (by decide)⟩

/-- Claim C5: `try_append_range` appends source elements in order until
the container is full and returns the position in the source range just
past the last element consumed (here: the count of consumed elements,
which is `min (source length) (free slots)`); in particular for a
3-element source and one free slot it appends exactly 1 element and
reports 1 of 3 consumed, and on a full container it appends nothing and
reports 0 consumed. -/
theorem C5_try_append_range (v : inplace_vector α N) (src : List α) :
    (v.try_append_range src).2 = min src.length (N - v.size) ∧
    (v.try_append_range src).1.elems = v.elems ++ src.take (N - v.size) ∧
    (v.size = N → (v.try_append_range src).2 = 0 ∧
      (v.try_append_range src).1.elems = v.elems) ∧
    ((nvec4.try_append_range [7, 8, 9]).2 = 1 ∧
     (nvec4.try_append_range [7, 8, 9]).1.elems = [1, 2, 3, 7]) ∧
    ((nvec4full.try_append_range [7, 8, 9]).2 = 0 ∧
     (nvec4full.try_append_range [7, 8, 9]).1.elems = [1, 2, 3, 4]) := by
  have hgo := inplace_vector.try_append_go_eq N src v.elems
  refine ⟨?_, ?_, fun hfull => ⟨?_, ?_⟩, ⟨by decide, by decide⟩,
    ⟨by decide, by decide⟩⟩
  · simp only [inplace_vector.try_append_range, inplace_vector.size, hgo]
  · simp only [inplace_vector.try_append_range, inplace_vector.size, hgo]
  · simp only [inplace_vector.try_append_range, inplace_vector.size,
      hgo] at *
    omega
  · simp only [inplace_vector.try_append_range, inplace_vector.size,
      hgo] at *
    simp [hfull]

/-- Witness for C5 at spec Scenario E's inputs: the one-free-slot
container and the full container, each with the 3-element source. -/
theorem C5_witness :
    nvec4full.size = 4 ∧
    ((nvec4full.try_append_range [7, 8, 9]).2 = 0 ∧
     (nvec4full.try_append_range [7, 8, 9]).1.elems = nvec4full.elems) ∧
    ((nvec4.try_append_range [7, 8, 9]).2 = 1 ∧
     (nvec4.try_append_range [7, 8, 9]).1.elems = [1, 2, 3, 7]) :=
  ⟨by decide, (C5_try_append_range nvec4full [7, 8, 9]).2.2.1 (by decide),
   (C5_try_append_range nvec4 [7, 8, 9]).2.2.2.1⟩

/-- Claim C6: for every index `pos ≥ size()`, `at(pos)` fails with the
out-of-range error whose message is "inplace_vector::at", for both the
const and non-const overloads; being a pure query, the call does not
modify the container; for `pos < size()` it returns the element at
`pos`. -/
theorem C6_at_checked_access (v : inplace_vector α N) (pos : Nat) :
    (pos ≥ v.size →
      v.«at» pos = Except.error VecError.outOfRange ∧
      v.at_const pos = Except.error VecError.outOfRange) ∧
    (∀ h : pos < v.size,
      v.«at» pos = Except.ok (v.elems.get ⟨pos, h⟩) ∧
      v.at_const pos = Except.ok (v.elems.get ⟨pos, h⟩)) ∧
    VecError.what VecError.outOfRange = "inplace_vector::at" := by
  refine ⟨fun h => ⟨?_, ?_⟩, fun h => ⟨?_, ?_⟩, rfl⟩
  · rw [inplace_vector.«at»]
    exact dif_neg (by simp only [inplace_vector.size] at h; omega)
  · rw [inplace_vector.at_const]
    exact dif_neg (by simp only [inplace_vector.size] at h; omega)
  · rw [inplace_vector.«at»]; exact dif_pos h
  · rw [inplace_vector.at_const]; exact dif_pos h

/-- Witness for C6 on spec Scenario C: a 3-element capacity-5 container;
`at(3)` fails with the out-of-range error on both overloads, `at(1)`
returns the element. -/
theorem C6_witness :
    (3 ≥ cvec5.size) ∧
    (cvec5.«at» 3 = Except.error VecError.outOfRange ∧
     cvec5.at_const 3 = Except.error VecError.outOfRange) ∧
    (cvec5.«at» 1 = Except.ok 'y' ∧ cvec5.at_const 1 = Except.ok 'y') ∧
    VecError.what VecError.outOfRange = "inplace_vector::at" := by
  have h3 := C6_at_checked_access cvec5 3
  have h1 := C6_at_checked_access cvec5 1
  have hlt : 1 < cvec5.size := by decide
  exact ⟨by decide, h3.1 (by decide),
    ⟨(h1.2.1 hlt).1, (h1.2.1 hlt).2⟩, h3.2.2⟩

/-- Claim C7: non-member `erase(container, value)` and
`erase_if(container, predicate)` remove every element equal to the value
(resp. satisfying the predicate), preserve the relative order of the
survivors (the result is the order-preserving filter of the contents),
and return the number of elements removed; in particular `erase_if` on
`0..9` removing even numbers yields `[1, 3, 5, 7, 9]` and returns 5. -/
theorem C7_nonmember_erase [DecidableEq α] (v : inplace_vector α N)
    (p : α → Bool) (x : α) :
    (erase_if v p).1.elems = v.elems.filter (fun y => !(p y)) ∧
    (erase_if v p).2 = v.elems.countP p ∧
    (erase_val v x).1.elems = v.elems.filter (fun y => !(decide (y = x))) ∧
    (erase_val v x).2 = v.elems.countP (fun y => decide (y = x)) ∧
    ((erase_if nvec10 (fun k => k % 2 == 0)).1.elems = [1, 3, 5, 7, 9] ∧
     (erase_if nvec10 (fun k => k % 2 == 0)).2 = 5) := by
  refine ⟨?_, ?_, ?_, ?_, by decide, by decide⟩ <;>
    simp [erase_if, erase_val, erase_if_go_eq]

/-- Claim C8: member `erase` (single position, or iterator range
`[first, last)`) shifts the retained trailing elements down, decrements
size by the number removed, and returns an iterator (the index) of the
element now occupying the erased position — which equals `end()` (the new
size) exactly when the erasure removed the tail; erasing an empty range
`[p, p)` removes nothing and returns `p`. -/
theorem C8_member_erase (v : inplace_vector α N) (pos first last : Nat)
    (hpos : pos < v.size) (h1 : first ≤ last) (h2 : last ≤ v.size) :
    (v.erase pos).2 = pos ∧
    (v.erase pos).1.size = v.size - 1 ∧
    (∀ i, i < pos → (v.erase pos).1.elems[i]? = v.elems[i]?) ∧
    (∀ i, pos ≤ i → (v.erase pos).1.elems[i]? = v.elems[i + 1]?) ∧
    (pos = v.size - 1 → (v.erase pos).2 = (v.erase pos).1.size) ∧
    (v.erase_range first last).2 = first ∧
    (v.erase_range first last).1.size = v.size - (last - first) ∧
    (∀ i, i < first →
      (v.erase_range first last).1.elems[i]? = v.elems[i]?) ∧
    (∀ i, first ≤ i →
      (v.erase_range first last).1.elems[i]? = v.elems[i + (last - first)]?) ∧
    ((v.erase_range first first).1.elems = v.elems ∧
     (v.erase_range first first).2 = first) := by
  simp only [inplace_vector.size] at hpos h2
  have htp : (v.elems.take pos).length = pos := by
    simp [List.length_take]; omega
  have htf : (v.elems.take first).length = first := by
    simp [List.length_take]; omega
  have hmax : max first last = last := Nat.max_eq_right h1
  refine ⟨rfl, ?_, ?_, ?_, ?_, rfl, ?_, ?_, ?_, ?_, rfl⟩
  · simp only [inplace_vector.erase, inplace_vector.size,
      List.length_append, List.length_take, List.length_drop]
    omega
  · intro i hi
    simp only [inplace_vector.erase]
    rw [List.getElem?_append, htp, if_pos hi]
    exact List.getElem?_take_of_lt hi
  · intro i hi
    simp only [inplace_vector.erase]
    rw [List.getElem?_append, htp, if_neg (by omega), List.getElem?_drop]
    have : pos + 1 + (i - pos) = i + 1 := by omega
    rw [this]
  · intro htail
    simp only [inplace_vector.erase, inplace_vector.size,
      List.length_append, List.length_take, List.length_drop] at *
    omega
  · simp only [inplace_vector.erase_range, inplace_vector.size, hmax,
      List.length_append, List.length_take, List.length_drop]
    omega
  · intro i hi
    simp only [inplace_vector.erase_range, hmax]
    rw [List.getElem?_append, htf, if_pos hi]
    exact List.getElem?_take_of_lt hi
  · intro i hi
    simp only [inplace_vector.erase_range, hmax]
    rw [List.getElem?_append, htf, if_neg (by omega), List.getElem?_drop]
    have : last + (i - first) = i + (last - first) := by omega
    rw [this]
  · simp only [inplace_vector.erase_range, Nat.max_self,
      List.take_append_drop]

/-- Witness for C8 on the test harness's 5-element container
`[a, b, c, d, e]` with `pos = 1`, range `[1, 3)`. -/
theorem C8_witness :
    (1 < avec5.size ∧ 1 ≤ 3 ∧ 3 ≤ avec5.size) ∧
    ((avec5.erase 1).2 = 1 ∧
     (avec5.erase 1).1.size = avec5.size - 1 ∧
     (avec5.erase_range 1 3).2 = 1 ∧
     (avec5.erase_range 1 3).1.size = avec5.size - 2 ∧
     (avec5.erase_range 1 1).1.elems = avec5.elems ∧
     (avec5.erase_range 1 1).2 = 1) := by
  have h := C8_member_erase avec5 1 1 3 (by decide) (by decide) (by decide)
  exact ⟨⟨by decide, by decide, by decide⟩,
    h.1, h.2.1, h.2.2.2.2.2.1, h.2.2.2.2.2.2.1,
    h.2.2.2.2.2.2.2.2.2.1, h.2.2.2.2.2.2.2.2.2.2⟩

/-- Claim C9: every successful append of a value — checked
`push_back`/`emplace_back`, unchecked
`unchecked_push_back`/`unchecked_emplace_back` — returns a reference to
the newly appended element (the back of the post-state) that compares
equal to the appended value, and the fallible
`try_push_back`/`try_emplace_back` return a non-null pointer to that
element. -/
theorem C9_append_returns_new_element (v : inplace_vector α N) (x : α)
    (h : v.size < N) :
    (∃ w, v.push_back x = Except.ok w ∧ w.elems.getLast? = some x) ∧
    (∃ w, v.emplace_back x = Except.ok w ∧ w.elems.getLast? = some x) ∧
    (v.unchecked_push_back x h).elems.getLast? = some x ∧
    (v.unchecked_emplace_back x h).elems.getLast? = some x ∧
    (∃ w, v.try_push_back x = some w ∧ w.elems.getLast? = some x) ∧
    (∃ w, v.try_emplace_back x = some w ∧ w.elems.getLast? = some x) := by
  have hN : ¬ (v.elems.length + 1 > N) := by
    simp only [inplace_vector.size] at h; omega
  have hle : (v.elems ++ [x]).length ≤ N := by simp; omega
  refine ⟨⟨⟨v.elems ++ [x], hle⟩, ?_, List.getLast?_concat _⟩,
    ⟨⟨v.elems ++ [x], hle⟩, ?_, List.getLast?_concat _⟩,
    List.getLast?_concat _, List.getLast?_concat _,
    ⟨⟨v.elems ++ [x], hle⟩, ?_, List.getLast?_concat _⟩,
    ⟨⟨v.elems ++ [x], hle⟩, ?_, List.getLast?_concat _⟩⟩
  · rw [inplace_vector.push_back, dif_neg hN]
  · rw [inplace_vector.emplace_back, dif_neg hN]
  · rw [inplace_vector.try_push_back, dif_neg hN]
  · rw [inplace_vector.try_emplace_back, dif_neg hN]

/-- Witness for C9: appending 9 to the 3-element capacity-4 container. -/
theorem C9_witness :
    nvec4.size < 4 ∧
    (∃ w, nvec4.push_back 9 = Except.ok w ∧
      w.elems.getLast? = some 9) ∧
    (∃ w, nvec4.try_push_back 9 = some w ∧
      w.elems.getLast? = some 9) := by
  have h := C9_append_returns_new_element nvec4 9 (by decide)
  exact ⟨by decide, h.1, h.2.2.2.2.1⟩

/-- Claim C10: `try_append_range` applied to an empty source range
succeeds trivially on every container — including one already at full
capacity — appending nothing, leaving the container unchanged, and
returning the end iterator of the source range (the count 0 consumed,
which is the empty source's length). -/
theorem C10_try_append_empty_source (v : inplace_vector α N) :
    (v.try_append_range ([] : List α)).1.elems = v.elems ∧
    (v.try_append_range ([] : List α)).2 = 0 ∧
    (v.try_append_range ([] : List α)).2 = ([] : List α).length ∧
    ((nvec4full.try_append_range ([] : List Nat)).1.elems =
       nvec4full.elems ∧
     (nvec4full.try_append_range ([] : List Nat)).2 = 0) := by
  refine ⟨?_, ?_, ?_, by decide, by decide⟩ <;>
    simp [inplace_vector.try_append_range, inplace_vector.try_append_go]

end IPV
